import Mathlib

/-!
Shallow embedding of `CRUD_Python_Module_7.py` (class `AnimalShelter`):
a CRUD wrapper around a MongoDB collection.

The collection is modelled as a list of records; a record is an
association list from field names to BSON-style values.  The MongoDB
client operations the module uses (`find` with a sort specification,
`insert_one`, `update_many` with `$set`, `delete_many`) are modelled
by executable Lean functions; whether the driver raises during an
insert (resp. whether query execution fails in `read`) is an input,
since it depends on the external server.

Python name resolution matters here: the module imports only
`MongoClient` and `ObjectId`, yet `create`'s `except PyMongoError:`
clause names `PyMongoError`.  In Python the class expression of an
`except` clause is evaluated only when an exception actually arrives,
at which point an unbound name raises `NameError`.  The embedding keeps
this: `resolveName` consults the module's bound names.
-/

namespace AnimalShelterModel

/-- BSON-style field values (the fragment the claims exercise). -/
inductive Value where
  | vInt : Int → Value
  | vStr : String → Value
  | vBool : Bool → Value
  deriving DecidableEq

/-- A document: an association list from field names to values
(Python dict / BSON document). -/
abbrev Record := List (String × Value)

/-- The bound collection: a list of documents in insertion order. -/
abbrev Collection := List Record

/-- Field lookup (`record[k]` / `k in record`), first occurrence wins. -/
def getField (r : Record) (k : String) : Option Value :=
  match r with
  | [] => none
  | (k1, v) :: rest => if k1 = k then some v else getField rest k

/-- Field assignment (`record[k] = v`): replace in place when the key is
present, append otherwise — matching both Python dict assignment and
MongoDB `$set` field positioning. -/
def setField (r : Record) (k : String) (v : Value) : Record :=
  match r with
  | [] => [(k, v)]
  | (k1, v1) :: rest => if k1 = k then (k, v) :: rest else (k1, v1) :: setField rest k v

/-- A query condition on one field: equality match, or the
`{"$type": "int"}` operator used by `get_next_rec_num`. -/
inductive Cond where
  | eqVal : Value → Cond
  | typeInt : Cond
  deriving DecidableEq

/-- A MongoDB filter document: conjunction of per-field conditions. -/
abbrev Query := List (String × Cond)

/-- Does a condition hold of a (possibly missing) field value? -/
def condHolds (c : Cond) (v : Option Value) : Bool :=
  match c, v with
  | .eqVal w, some v => v = w
  | .typeInt, some (.vInt _) => true
  | _, _ => false

/-- A document matches a filter when every listed condition holds. -/
def matchesQuery (q : Query) (r : Record) : Bool :=
  q.all (fun kc => condHolds kc.2 (getField r kc.1))

/-- BSON cross-type rank used by MongoDB comparison order
(numbers sort before strings, strings before booleans). -/
def valRank : Value → Nat
  | .vInt _ => 0
  | .vStr _ => 1
  | .vBool _ => 2

/-- MongoDB value comparison: within a type the natural order, across
types the BSON type rank. -/
def valueLe (a b : Value) : Bool :=
  match a, b with
  | .vInt x, .vInt y => decide (x ≤ y)
  | .vStr x, .vStr y => decide (x ≤ y)
  | .vBool x, .vBool y => !x || y
  | _, _ => decide (valRank a ≤ valRank b)

/-- Sort-key comparison for a possibly missing field: a missing field
sorts before every present value (MongoDB treats it as null, the
lowest rank that occurs here). -/
def keyLe (a b : Option Value) : Bool :=
  match a, b with
  | none, _ => true
  | some _, none => false
  | some x, some y => valueLe x y

/-- Ascending `rec_num` order on documents (`sort=[("rec_num", 1)]`). -/
def recLe (r s : Record) : Prop :=
  keyLe (getField r "rec_num") (getField s "rec_num") = true

/-- Descending `rec_num` order on documents (`sort=[("rec_num", -1)]`). -/
def recGe (r s : Record) : Prop :=
  keyLe (getField s "rec_num") (getField r "rec_num") = true

instance : DecidableRel recLe := fun r s => by unfold recLe; infer_instance

instance : DecidableRel recGe := fun r s => by unfold recGe; infer_instance

/-- `collection.find(q, sort=[("rec_num", 1)])`: the matching documents
in ascending `rec_num` order. -/
def findSortAsc (coll : Collection) (q : Query) : List Record :=
  List.insertionSort recLe (coll.filter (matchesQuery q))

/-- `collection.find(q, sort=[("rec_num", -1)])`: the matching documents
in descending `rec_num` order. -/
def findSortDesc (coll : Collection) (q : Query) : List Record :=
  List.insertionSort recGe (coll.filter (matchesQuery q))

/-- Python exceptions that can surface from the embedded code. -/
inductive PyErr where
  | nameError : String → PyErr
  | typeError : String → PyErr
  | exception : String → PyErr
  deriving DecidableEq

/-- Names resolvable at module scope in `CRUD_Python_Module_7.py`: the
two imports, the class itself, and the builtins the module touches.
`PyMongoError` is deliberately absent — the module never imports it. -/
def moduleBoundNames : List String :=
  ["MongoClient", "ObjectId", "AnimalShelter", "Exception", "print", "next"]

/-- Python name resolution: an unbound name raises `NameError`. -/
def resolveName (n : String) : Except PyErr Unit :=
  if n ∈ moduleBoundNames then .ok () else .error (.nameError n)

/-- Python `v + 1`: defined on integers, a `TypeError` otherwise. -/
def pyAddOneToValue (v : Value) : Except PyErr Int :=
  match v with
  | .vInt n => .ok (n + 1)
  | _ => .error (.typeError "unsupported operand type for +")

/-- The filter `{"rec_num": {"$type": "int"}}` from `get_next_rec_num`. -/
def recNumIntQuery : Query := [("rec_num", Cond.typeInt)]

/-- `AnimalShelter.get_next_rec_num`: `find` the integer-typed `rec_num`
documents sorted descending, take the first (`limit=1` plus
`next(cursor, None)`), and return its `rec_num + 1`; return 1 when there
is no such document.  The Python guard `if record and "rec_num" in
record` is the truthiness test plus key membership. -/
def get_next_rec_num (coll : Collection) : Except PyErr Int :=
  match (findSortDesc coll recNumIntQuery).head? with
  | some record =>
      if !record.isEmpty && (getField record "rec_num").isSome then
        match getField record "rec_num" with
        | some v => pyAddOneToValue v
        | none => .ok 1
      else .ok 1
  | none => .ok 1

/-- Environmental outcome of `insert_one`: the write is acknowledged, or
the driver raises a `PyMongoError` during the insert. -/
inductive InsertOutcome where
  | ack : InsertOutcome
  | failure : InsertOutcome
  deriving DecidableEq

/-- Result of a `create` call: the Python return value (or the exception
that propagates), the collection afterwards, and the caller's `data`
dictionary afterwards (`create` mutates it in place). -/
structure CreateResult where
  result : Except PyErr Bool
  coll : Collection
  callerData : Option Record

/-- `AnimalShelter.create`: `None` data raises; otherwise
`data["rec_num"] = self.get_next_rec_num()` mutates the caller's dict,
then `insert_one` runs.  On a driver failure the `except PyMongoError:`
clause evaluates the unbound name `PyMongoError`, so `NameError`
propagates instead of the documented `False`. -/
def create (coll : Collection) (data : Option Record) (outcome : InsertOutcome) :
    CreateResult :=
  match data with
  | some d =>
    match get_next_rec_num coll with
    | .error e => ⟨.error e, coll, some d⟩
    | .ok n =>
      let d2 := setField d "rec_num" (.vInt n)
      match outcome with
      | .ack => ⟨.ok true, coll ++ [d2], some d2⟩
      | .failure =>
        match resolveName "PyMongoError" with
        | .ok _ => ⟨.ok false, coll, some d2⟩
        | .error e => ⟨.error e, coll, some d2⟩
  | none => ⟨.error (.exception "Nothing to save, because data parameter is empty"), coll, none⟩

/-- `AnimalShelter.read`: `find(query, sort=[("rec_num", 1)])` inside a
`try`; on a query-execution failure the handler (the bound builtin
`Exception`) prints and returns `[]`.  `fail` is the environmental flag
for whether execution fails. -/
def read (coll : Collection) (q : Query) (fail : Bool) : List Record :=
  if fail then [] else findSortAsc coll q

/-- MongoDB `$set` application: each listed field is written into the
document in order. -/
def applySet (changed : Record) (r : Record) : Record :=
  changed.foldl (fun acc kv => setField acc kv.1 kv.2) r

/-- The update document `{"$set": changed_fields}` built by `update`. -/
inductive UpdateDoc where
  | set : Record → UpdateDoc

/-- Apply an update document to one document. -/
def applyUpdateDoc : UpdateDoc → Record → Record
  | .set changed, r => applySet changed r

/-- MongoDB `update_many`: apply the update document to every matching
document; `modified_count` counts the matching documents actually
changed (a matching document already equal to its target is matched but
not modified). -/
def update_many (coll : Collection) (q : Query) (u : UpdateDoc) : Collection × Nat :=
  (coll.map (fun r => if matchesQuery q r then applyUpdateDoc u r else r),
   (coll.filter (fun r => matchesQuery q r && decide (applyUpdateDoc u r ≠ r))).length)

/-- `AnimalShelter.update`: `update_many(query, {"$set": changed_fields})`,
returning `modified_count`. -/
def update (coll : Collection) (q : Query) (changed_fields : Record) : Collection × Nat :=
  update_many coll q (.set changed_fields)

/-- MongoDB `delete_many`: remove every matching document, report
`deleted_count`. -/
def delete_many (coll : Collection) (q : Query) : Collection × Nat :=
  (coll.filter (fun r => !matchesQuery q r),
   (coll.filter (fun r => matchesQuery q r)).length)

/-- `AnimalShelter.delete`: `delete_many(query)`, returning
`deleted_count`. -/
def delete (coll : Collection) (q : Query) : Collection × Nat :=
  delete_many coll q

/-- The integer-typed `rec_num` of a document, when it has one. -/
def keyInt (r : Record) : Option Int :=
  match getField r "rec_num" with
  | some (.vInt n) => some n
  | _ => none

/-- All integer-typed `rec_num` values present in the collection. -/
def intRecNums (coll : Collection) : List Int :=
  coll.filterMap keyInt

/-- Maximum of a list of integers, `none` when empty. -/
def maxInt : List Int → Option Int
  | [] => none
  | n :: rest =>
    match maxInt rest with
    | none => some n
    | some m => some (max n m)

/-- Specification of the allocator, transcribed from the spec's words:
one more than the highest integer-typed `rec_num` present, or 1 when no
integer-typed `rec_num` exists. -/
def specNextRecNum (coll : Collection) : Int :=
  match maxInt (intRecNums coll) with
  | none => 1
  | some m => m + 1

/-- Driver for sequential `create` calls, all with acknowledged inserts:
returns the final collection and the list of records as the successive
calls left them in the callers' dictionaries. -/
def createSeq : Collection → List Record → Collection × List Record
  | coll, [] => (coll, [])
  | coll, d :: rest =>
    let res := create coll (some d) InsertOutcome.ack
    let next := createSeq res.coll rest
    (next.1, res.callerData.getD [] :: next.2)

/-- The `rec_num` values assigned by a run of sequential creates. -/
def assignedNums (coll : Collection) (datas : List Record) : List Int :=
  (createSeq coll datas).2.filterMap keyInt

/-! ### Order facts about the sort comparators -/

lemma valueLe_total (a b : Value) : valueLe a b || valueLe b a := by
  cases a <;> cases b <;>
    simp only [valueLe, valRank, Bool.or_eq_true, decide_eq_true_eq] <;>
    first
      | omega
      | exact le_total _ _
      | (rename_i x y; cases x <;> cases y <;> simp)

lemma valueLe_trans (a b c : Value) (hab : valueLe a b) (hbc : valueLe b c) :
    valueLe a c := by
  cases a <;> cases b <;> cases c <;>
    simp only [valueLe, valRank, decide_eq_true_eq] at hab hbc ⊢ <;>
    first
      | trivial
      | omega
      | exact le_trans hab hbc
      | (rename_i x y z; cases x <;> cases y <;> cases z <;> simp_all)

lemma keyLe_total (a b : Option Value) : keyLe a b || keyLe b a := by
  cases a <;> cases b <;> simp [keyLe, valueLe_total]

lemma keyLe_trans (a b c : Option Value) (hab : keyLe a b) (hbc : keyLe b c) :
    keyLe a c := by
  cases a <;> cases b <;> cases c <;> simp_all [keyLe] <;>
    exact valueLe_trans _ _ _ hab hbc

instance : IsTotal Record recLe :=
  ⟨fun r s => by
    unfold recLe
    rcases Bool.or_eq_true_iff.mp (keyLe_total (getField r "rec_num") (getField s "rec_num"))
      with h | h
    · exact Or.inl h
    · exact Or.inr h⟩

instance : IsTrans Record recLe :=
  ⟨fun r s t hrs hst => keyLe_trans _ _ _ hrs hst⟩

instance : IsTotal Record recGe :=
  ⟨fun r s => by
    unfold recGe
    rcases Bool.or_eq_true_iff.mp (keyLe_total (getField s "rec_num") (getField r "rec_num"))
      with h | h
    · exact Or.inl h
    · exact Or.inr h⟩

instance : IsTrans Record recGe :=
  ⟨fun r s t hrs hst => keyLe_trans _ _ _ hst hrs⟩

/-! ### Field lookup and assignment -/

lemma getField_nil (k : String) : getField ([] : Record) k = none := rfl

lemma getField_setField_self (r : Record) (k : String) (v : Value) :
    getField (setField r k v) k = some v := by
  induction r with
  | nil => simp [setField, getField]
  | cons p rest ih =>
    obtain ⟨k1, v1⟩ := p
    by_cases h : k1 = k
    · simp [setField, getField, h]
    · simp [setField, getField, h, ih]

lemma getField_setField_ne (r : Record) (k k2 : String) (v : Value) (h : k2 ≠ k) :
    getField (setField r k v) k2 = getField r k2 := by
  induction r with
  | nil => simp [setField, getField, Ne.symm h]
  | cons p rest ih =>
    obtain ⟨k1, v1⟩ := p
    by_cases h1 : k1 = k
    · subst h1
      simp [setField, getField, Ne.symm h]
    · simp only [setField, if_neg h1, getField]
      by_cases h2 : k1 = k2 <;> simp [h2, ih]

lemma getField_ne_nil {r : Record} {k : String} {v : Value}
    (h : getField r k = some v) : r.isEmpty = false := by
  cases r with
  | nil => simp [getField] at h
  | cons p rest => simp [List.isEmpty]

/-! ### `$set` application -/

lemma getField_none_of_not_mem_keys {ch : Record} {k : String}
    (h : k ∉ ch.map Prod.fst) : getField ch k = none := by
  induction ch with
  | nil => rfl
  | cons p rest ih =>
    obtain ⟨k1, v1⟩ := p
    simp only [List.map_cons, List.mem_cons] at h
    push_neg at h
    simp [getField, Ne.symm h.1, ih h.2]

lemma applySet_nil (r : Record) : applySet [] r = r := rfl

lemma applySet_cons (k1 : String) (v1 : Value) (rest : Record) (r : Record) :
    applySet ((k1, v1) :: rest) r = applySet rest (setField r k1 v1) := rfl

lemma getField_applySet_of_none {ch : Record} {k : String}
    (h : getField ch k = none) (r : Record) :
    getField (applySet ch r) k = getField r k := by
  induction ch generalizing r with
  | nil => rfl
  | cons p rest ih =>
    obtain ⟨k1, v1⟩ := p
    simp only [getField] at h
    by_cases h1 : k1 = k
    · simp [h1] at h
    · simp only [if_neg h1] at h
      rw [applySet_cons, ih h, getField_setField_ne _ _ _ _ (fun hk => h1 hk.symm)]

lemma getField_applySet_of_some {ch : Record} {k : String} {v : Value}
    (hnd : (ch.map Prod.fst).Nodup) (h : getField ch k = some v) (r : Record) :
    getField (applySet ch r) k = some v := by
  induction ch generalizing r with
  | nil => simp [getField] at h
  | cons p rest ih =>
    obtain ⟨k1, v1⟩ := p
    simp only [List.map_cons, List.nodup_cons] at hnd
    simp only [getField] at h
    rw [applySet_cons]
    by_cases h1 : k1 = k
    · subst h1
      simp only [if_true, eq_self_iff_true, Option.some.injEq] at h
      rw [getField_applySet_of_none (getField_none_of_not_mem_keys hnd.1), ← h]
      exact getField_setField_self r k1 v1
    · simp only [if_neg h1] at h
      exact ih hnd.2 h _

/-! ### The integer maximum -/

lemma maxInt_eq_none_iff (l : List Int) : maxInt l = none ↔ l = [] := by
  cases l with
  | nil => simp [maxInt]
  | cons n rest =>
    simp only [maxInt]
    cases maxInt rest <;> simp

lemma maxInt_mem {l : List Int} {m : Int} (h : maxInt l = some m) : m ∈ l := by
  induction l generalizing m with
  | nil => simp [maxInt] at h
  | cons n rest ih =>
    simp only [maxInt] at h
    cases hr : maxInt rest with
    | none =>
      rw [hr] at h
      simp only [Option.some.injEq] at h
      simp [h.symm]
    | some m0 =>
      rw [hr] at h
      simp only [Option.some.injEq] at h
      rcases max_choice n m0 with hc | hc <;> rw [← h, hc]
      · exact List.mem_cons_self _ _
      · exact List.mem_cons_of_mem _ (ih hr)

lemma le_maxInt {l : List Int} {m : Int} (h : maxInt l = some m) :
    ∀ k ∈ l, k ≤ m := by
  induction l generalizing m with
  | nil => simp
  | cons n rest ih =>
    intro k hk
    simp only [maxInt] at h
    cases hr : maxInt rest with
    | none =>
      rw [hr] at h
      simp only [Option.some.injEq] at h
      have hrest : rest = [] := (maxInt_eq_none_iff rest).mp hr
      subst hrest
      simp only [List.mem_cons, List.not_mem_nil, or_false] at hk
      omega
    | some m0 =>
      rw [hr] at h
      simp only [Option.some.injEq] at h
      rcases List.mem_cons.mp hk with hk | hk
      · subst hk
        omega
      · have := ih hr k hk
        omega

lemma maxInt_append_singleton (l : List Int) (a : Int) :
    maxInt (l ++ [a]) =
      some (match maxInt l with | none => a | some m => max m a) := by
  induction l with
  | nil => simp [maxInt]
  | cons n rest ih =>
    cases hr : maxInt rest with
    | none =>
      have ha : maxInt (rest ++ [a]) = some a := by rw [ih, hr]
      simp [maxInt, List.cons_append, ha, hr]
    | some m =>
      have ha : maxInt (rest ++ [a]) = some (max m a) := by rw [ih, hr]
      simp [maxInt, List.cons_append, ha, hr, max_assoc]

/-! ### `keyInt` and the type filter -/

lemma keyInt_eq_some_iff (r : Record) (n : Int) :
    keyInt r = some n ↔ getField r "rec_num" = some (.vInt n) := by
  unfold keyInt
  cases h : getField r "rec_num" with
  | none => simp
  | some v => cases v <;> simp

lemma keyInt_setField (d : Record) (n : Int) :
    keyInt (setField d "rec_num" (.vInt n)) = some n := by
  rw [keyInt_eq_some_iff]
  exact getField_setField_self d "rec_num" (.vInt n)

lemma matchesQuery_recNumIntQuery (r : Record) :
    matchesQuery recNumIntQuery r = (keyInt r).isSome := by
  simp only [matchesQuery, recNumIntQuery, List.all_cons, List.all_nil, Bool.and_true]
  unfold keyInt
  cases h : getField r "rec_num" with
  | none => simp [condHolds]
  | some v => cases v <;> simp [condHolds]

lemma filterMap_keyInt_filter (coll : Collection) :
    (coll.filter (matchesQuery recNumIntQuery)).filterMap keyInt = intRecNums coll := by
  unfold intRecNums
  induction coll with
  | nil => rfl
  | cons r rest ih =>
    cases h : matchesQuery recNumIntQuery r with
    | true =>
      rw [matchesQuery_recNumIntQuery] at h
      obtain ⟨n, hn⟩ := Option.isSome_iff_exists.mp h
      simp [List.filter_cons, matchesQuery_recNumIntQuery, h, List.filterMap_cons, hn, ih]
    | false =>
      rw [matchesQuery_recNumIntQuery] at h
      have hn : keyInt r = none := by
        cases hk : keyInt r
        · rfl
        · rw [hk] at h; simp at h
      simp [List.filter_cons, matchesQuery_recNumIntQuery, h, List.filterMap_cons, hn, ih]

lemma intRecNums_append (coll : Collection) (d : Record) :
    intRecNums (coll ++ [d]) = intRecNums coll ++ (keyInt d).toList := by
  unfold intRecNums
  rw [List.filterMap_append]
  cases h : keyInt d <;> simp [List.filterMap_cons, h]

/-! ### The allocator agrees with the max-plus-one specification -/

lemma lt_specNextRecNum (coll : Collection) (k : Int) (hk : k ∈ intRecNums coll) :
    k < specNextRecNum coll := by
  unfold specNextRecNum
  cases hx : maxInt (intRecNums coll) with
  | none =>
    rw [maxInt_eq_none_iff] at hx
    rw [hx] at hk
    simp at hk
  | some m =>
    have := le_maxInt hx k hk
    show k < m + 1
    omega

lemma get_next_rec_num_eq (coll : Collection) :
    get_next_rec_num coll = .ok (specNextRecNum coll) := by
  unfold get_next_rec_num findSortDesc
  cases hS : List.insertionSort recGe (coll.filter (matchesQuery recNumIntQuery)) with
  | nil =>
    have hperm := List.perm_insertionSort recGe (coll.filter (matchesQuery recNumIntQuery))
    rw [hS] at hperm
    have hL : coll.filter (matchesQuery recNumIntQuery) = [] := hperm.symm.eq_nil
    have h1 : intRecNums coll = [] := by
      rw [← filterMap_keyInt_filter, hL]
      simp
    simp [specNextRecNum, h1, maxInt]
  | cons h t =>
    have hperm := List.perm_insertionSort recGe (coll.filter (matchesQuery recNumIntQuery))
    rw [hS] at hperm
    have hsorted := List.sorted_insertionSort recGe (coll.filter (matchesQuery recNumIntQuery))
    rw [hS] at hsorted
    have hmem : h ∈ coll.filter (matchesQuery recNumIntQuery) :=
      hperm.mem_iff.mp (List.mem_cons_self h t)
    have hmatch : matchesQuery recNumIntQuery h := (List.mem_filter.mp hmem).2
    rw [matchesQuery_recNumIntQuery] at hmatch
    obtain ⟨m, hm⟩ := Option.isSome_iff_exists.mp hmatch
    have hget : getField h "rec_num" = some (.vInt m) := (keyInt_eq_some_iff h m).mp hm
    have hmax : maxInt (intRecNums coll) = some m := by
      have hmm : m ∈ intRecNums coll := by
        rw [← filterMap_keyInt_filter]
        exact List.mem_filterMap.mpr ⟨h, hmem, hm⟩
      obtain ⟨m2, hm2⟩ : ∃ m2, maxInt (intRecNums coll) = some m2 := by
        cases hx : maxInt (intRecNums coll) with
        | none =>
          rw [maxInt_eq_none_iff] at hx
          rw [hx] at hmm
          simp at hmm
        | some m2 => exact ⟨m2, rfl⟩
      have hle : m2 ≤ m := by
        have hm2mem := maxInt_mem hm2
        rw [← filterMap_keyInt_filter] at hm2mem
        obtain ⟨r, hrmem, hrkey⟩ := List.mem_filterMap.mp hm2mem
        have hrS : r ∈ h :: t := hperm.mem_iff.mpr hrmem
        rcases List.mem_cons.mp hrS with hr | hr
        · subst hr
          rw [hm] at hrkey
          injection hrkey with e
          omega
        · have hrel : recGe h r := List.rel_of_sorted_cons hsorted r hr
          unfold recGe at hrel
          rw [hget, (keyInt_eq_some_iff r m2).mp hrkey] at hrel
          simpa [keyLe, valueLe] using hrel
      have hge : m ≤ m2 := le_maxInt hm2 m hmm
      rw [hm2]
      congr 1
      omega
    simp [List.head?, hget, getField_ne_nil hget, pyAddOneToValue, specNextRecNum, hmax]

lemma specNextRecNum_append (coll : Collection) (d2 : Record) (n0 : Int)
    (h : keyInt d2 = some n0) (hn : ∀ k ∈ intRecNums coll, k < n0) :
    specNextRecNum (coll ++ [d2]) = n0 + 1 := by
  unfold specNextRecNum
  rw [intRecNums_append, h]
  simp only [Option.toList_some]
  rw [maxInt_append_singleton]
  cases hx : maxInt (intRecNums coll) with
  | none => simp
  | some m =>
    have hm : m < n0 := hn m (maxInt_mem hx)
    simp [max_eq_right (le_of_lt hm)]

/-! ### `create` on the two insert outcomes -/

lemma create_ack_eq (coll : Collection) (d : Record) :
    create coll (some d) .ack =
      ⟨.ok true, coll ++ [setField d "rec_num" (.vInt (specNextRecNum coll))],
       some (setField d "rec_num" (.vInt (specNextRecNum coll)))⟩ := by
  unfold create
  rw [get_next_rec_num_eq]

lemma resolveName_PyMongoError :
    resolveName "PyMongoError" = .error (.nameError "PyMongoError") := by
  simp [resolveName, moduleBoundNames]

lemma create_failure_eq (coll : Collection) (d : Record) :
    create coll (some d) .failure =
      ⟨.error (.nameError "PyMongoError"), coll,
       some (setField d "rec_num" (.vInt (specNextRecNum coll)))⟩ := by
  unfold create
  rw [get_next_rec_num_eq]
  simp only [resolveName_PyMongoError]

/-! ### Sequential creates -/

lemma createSeq_cons (coll : Collection) (d : Record) (rest : List Record) :
    createSeq coll (d :: rest) =
      ((createSeq (coll ++ [setField d "rec_num" (.vInt (specNextRecNum coll))]) rest).1,
       setField d "rec_num" (.vInt (specNextRecNum coll)) ::
         (createSeq (coll ++ [setField d "rec_num" (.vInt (specNextRecNum coll))]) rest).2) := by
  simp [createSeq, create_ack_eq]

lemma createSeq_length (datas : List Record) :
    ∀ coll : Collection, (createSeq coll datas).2.length = datas.length := by
  induction datas with
  | nil => intro coll; simp [createSeq]
  | cons d rest ih => intro coll; rw [createSeq_cons]; simp [ih]

lemma createSeq_nums (datas : List Record) : ∀ coll : Collection,
    (assignedNums coll datas).length = datas.length ∧
    (∀ n ∈ assignedNums coll datas, specNextRecNum coll ≤ n) ∧
    (assignedNums coll datas).Pairwise (· < ·) := by
  induction datas with
  | nil =>
    intro coll
    simp [assignedNums, createSeq]
  | cons d rest ih =>
    intro coll
    have hkey : keyInt (setField d "rec_num" (.vInt (specNextRecNum coll))) =
        some (specNextRecNum coll) := keyInt_setField d (specNextRecNum coll)
    have heq : assignedNums coll (d :: rest) =
        specNextRecNum coll ::
          assignedNums (coll ++ [setField d "rec_num" (.vInt (specNextRecNum coll))]) rest := by
      unfold assignedNums
      rw [createSeq_cons]
      simp [List.filterMap_cons, hkey]
    have hspec2 :
        specNextRecNum (coll ++ [setField d "rec_num" (.vInt (specNextRecNum coll))]) =
          specNextRecNum coll + 1 :=
      specNextRecNum_append coll _ _ hkey (fun k hk => lt_specNextRecNum coll k hk)
    obtain ⟨ihlen, ihbound, ihpair⟩ :=
      ih (coll ++ [setField d "rec_num" (.vInt (specNextRecNum coll))])
    refine ⟨?_, ?_, ?_⟩
    · rw [heq]
      simp [ihlen]
    · intro n hn
      rw [heq] at hn
      rcases List.mem_cons.mp hn with h | h
      · omega
      · have := ihbound n h
        omega
    · rw [heq]
      refine List.Pairwise.cons ?_ ihpair
      intro n hn
      have := ihbound n hn
      omega

lemma assignedNums_two (da db : Record) : assignedNums [] [da, db] = [1, 2] := by
  have h1 : specNextRecNum ([] : Collection) = 1 := rfl
  have hkey : keyInt (setField da "rec_num" (.vInt (specNextRecNum ([] : Collection)))) =
      some (specNextRecNum ([] : Collection)) := keyInt_setField _ _
  have h2 : specNextRecNum
        ([] ++ [setField da "rec_num" (.vInt (specNextRecNum ([] : Collection)))]) =
      specNextRecNum ([] : Collection) + 1 :=
    specNextRecNum_append _ _ _ hkey (by intro k hk; simp [intRecNums] at hk)
  simp only [h1, List.nil_append] at h2
  unfold assignedNums
  rw [createSeq_cons, createSeq_cons]
  simp [List.filterMap_cons, keyInt_setField, createSeq, h1, h2]

/-! ### Counting lemmas for update and delete -/

lemma length_filter_split {α : Type} (p : α → Bool) (l : List α) :
    (l.filter p).length + (l.filter (fun a => !p a)).length = l.length := by
  induction l with
  | nil => rfl
  | cons a rest ih =>
    cases h : p a <;> simp [List.filter_cons, h] <;> omega

lemma count_zip_update {α : Type} [DecidableEq α] (p : α → Bool) (g : α → α)
    (l : List α) :
    (l.filter (fun a => p a && decide (g a ≠ a))).length =
      ((l.zip (l.map (fun a => if p a then g a else a))).filter
        (fun pr => decide (pr.1 ≠ pr.2))).length := by
  induction l with
  | nil => rfl
  | cons a rest ih =>
    simp only [List.map_cons, List.zip_cons_cons, List.filter_cons]
    cases h : p a with
    | false =>
      simp [h]
      simpa using ih
    | true =>
      by_cases hne : g a = a
      · simp [h, hne]
        simpa using ih
      · simp [h, hne, Ne.symm hne]
        simpa using ih

lemma update_count_zip (q : Query) (ch : Record) (coll : Collection) :
    (update coll q ch).2 =
      ((coll.zip (update coll q ch).1).filter (fun p => decide (p.1 ≠ p.2))).length := by
  have h := count_zip_update (fun r => matchesQuery q r)
    (fun r => applyUpdateDoc (.set ch) r) coll
  simpa [update, update_many] using h

/-! ### Example data used by the claims -/

/-- Collection with integer `rec_num` values 3, 7, 5 and non-integer
(string) `rec_num` values interspersed. -/
def exampleMixedColl : Collection :=
  [[("rec_num", Value.vInt 3)],
   [("rec_num", Value.vStr "abc"), ("name", Value.vStr "cat")],
   [("rec_num", Value.vInt 7)],
   [("rec_num", Value.vStr "zzz")],
   [("rec_num", Value.vInt 5)]]

/-- One-record collection used by the read-failure example. -/
def w6coll : Collection := [[("rec_num", Value.vInt 1), ("name", Value.vStr "Rex")]]

/-- A query on a field no record has. -/
def w6q : Query := [("missing_field", Cond.eqVal (Value.vStr "x"))]

/-- Collection for the update example. -/
def w7coll : Collection := [[("rec_num", Value.vInt 1), ("name", Value.vStr "Rex")]]

/-- Query `{"rec_num": 1}`. -/
def w7q : Query := [("rec_num", Cond.eqVal (Value.vInt 1))]

/-- Changed fields `{"name": "Fido"}`. -/
def w7ch : Record := [("name", Value.vStr "Fido")]

/-- Collection for the delete example: `rec_num` 1 matches uniquely. -/
def w8coll : Collection :=
  [[("rec_num", Value.vInt 1), ("name", Value.vStr "Rex")], [("rec_num", Value.vInt 2)]]

/-- Query `{"rec_num": 1}` for the delete example. -/
def w8q : Query := [("rec_num", Cond.eqVal (Value.vInt 1))]

/-- A caller record that supplies its own (string) `rec_num`. -/
def w9d : Record := [("rec_num", Value.vStr "caller"), ("name", Value.vStr "Rex")]

/-! ### The claims -/

/-- C1: `get_next_rec_num` returns `m + 1` where `m` is the highest
integer-typed `rec_num` in the collection, and 1 when no integer-typed
`rec_num` exists (`specNextRecNum` transcribes exactly those words);
non-integer `rec_num` values are ignored and never treated as errors, and
on a collection with integer `rec_num` values 3, 7, 5 and interspersed
string `rec_num` values the result is 8. -/
theorem get_next_rec_num_correct :
    (∀ coll : Collection, get_next_rec_num coll = .ok (specNextRecNum coll)) ∧
    get_next_rec_num exampleMixedColl = .ok 8 :=
  ⟨get_next_rec_num_eq, by
    have h : specNextRecNum exampleMixedColl = 8 := by decide
    rw [get_next_rec_num_eq, h]⟩

/-- C2: across any run of sequential acknowledged creates, every created
record carries a module-assigned integer `rec_num` (the lengths of the
record list and of its integer `rec_num` projection both equal the number
of creates), the assigned values are strictly increasing — hence unique
and monotone — the module overwrites any caller-supplied `rec_num` with
`specNextRecNum`, and two creates from the empty collection assign 1
then 2. -/
theorem create_sequence_monotone :
    (∀ (coll : Collection) (datas : List Record),
        (createSeq coll datas).2.length = datas.length ∧
        (assignedNums coll datas).length = datas.length ∧
        (assignedNums coll datas).Pairwise (· < ·)) ∧
    (∀ (coll : Collection) (d : Record),
        (create coll (some d) .ack).callerData =
          some (setField d "rec_num" (.vInt (specNextRecNum coll)))) ∧
    (∀ da db : Record, assignedNums [] [da, db] = [1, 2]) := by
  refine ⟨fun coll datas => ?_, fun coll d => ?_, assignedNums_two⟩
  · obtain ⟨hlen, _, hpair⟩ := createSeq_nums datas coll
    exact ⟨createSeq_length datas coll, hlen, hpair⟩
  · rw [create_ack_eq]

/-- C3 (the code refutes the claim): an acknowledged insert does return
`True`, but on a driver-level insert failure `create` does not return
`False` — the `except PyMongoError:` clause evaluates the name
`PyMongoError`, which the module never imports, so a `NameError`
propagates to the caller. -/
theorem create_driver_failure_raises (coll : Collection) (d : Record) :
    (create coll (some d) .ack).result = .ok true ∧
    (create coll (some d) .failure).result = .error (.nameError "PyMongoError") := by
  rw [create_ack_eq, create_failure_eq]
  exact ⟨rfl, rfl⟩

/-- C4: `create(None)` raises the `Exception` with the source's message
and leaves the collection unchanged. -/
theorem create_none_raises (coll : Collection) (o : InsertOutcome) :
    (create coll none o).result =
      .error (.exception "Nothing to save, because data parameter is empty") ∧
    (create coll none o).coll = coll :=
  ⟨rfl, rfl⟩

/-- C5: a successfully executing `read` returns exactly the matching
records, sorted ascending by `rec_num`; on records with `rec_num` 2, 1, 3
and the empty query they come back ordered 1, 2, 3. -/
theorem read_sorted_ascending (coll : Collection) (q : Query) :
    (read coll q false).Perm (coll.filter (matchesQuery q)) ∧
    (read coll q false).Sorted recLe ∧
    read [[("rec_num", Value.vInt 2)], [("rec_num", Value.vInt 1)],
        [("rec_num", Value.vInt 3)]] [] false =
      [[("rec_num", Value.vInt 1)], [("rec_num", Value.vInt 2)],
        [("rec_num", Value.vInt 3)]] := by
  refine ⟨?_, ?_, by decide⟩
  · simpa [read, findSortAsc] using
      List.perm_insertionSort recLe (coll.filter (matchesQuery q))
  · simpa [read, findSortAsc] using
      List.sorted_insertionSort recLe (coll.filter (matchesQuery q))

/-- C6: a failing `read` returns the empty sequence rather than
propagating, and a successful `read` with no matches also returns the
empty sequence — the two are indistinguishable by the return value. -/
theorem read_failure_returns_empty (coll : Collection) (q : Query) :
    read coll q true = [] ∧
    (coll.filter (matchesQuery q) = [] → read coll q false = []) := by
  refine ⟨rfl, fun h => ?_⟩
  simp [read, findSortAsc, h]

/-- Witness for C6 at a concrete collection and no-match query. -/
theorem read_failure_returns_empty_witness :
    read w6coll w6q true = [] ∧ read w6coll w6q false = [] :=
  ⟨(read_failure_returns_empty w6coll w6q).1,
   (read_failure_returns_empty w6coll w6q).2 (by decide)⟩

/-- C7: `update` applies merge semantics to every matching record —
listed fields are set/overwritten, unlisted fields and non-matching
records are untouched — and returns the count of records actually
changed (matching records already equal to the target do not count);
the spec's `{"rec_num": 1} / {"name": "Fido"}` example modifies one
record and leaves the other field unchanged. -/
theorem update_merge_semantics (coll : Collection) (q : Query) (ch : Record)
    (hkeys : (ch.map Prod.fst).Nodup) :
    ((update coll q ch).1).length = coll.length ∧
    (∀ (i : Nat) (r : Record), coll[i]? = some r →
      (matchesQuery q r = false → (update coll q ch).1[i]? = some r) ∧
      (matchesQuery q r = true →
        ∃ r2, (update coll q ch).1[i]? = some r2 ∧
          (∀ k v, getField ch k = some v → getField r2 k = some v) ∧
          (∀ k, getField ch k = none → getField r2 k = getField r k))) ∧
    (update coll q ch).2 =
      ((coll.zip (update coll q ch).1).filter (fun p => decide (p.1 ≠ p.2))).length ∧
    update [[("rec_num", Value.vInt 1), ("name", Value.vStr "Rex")]]
        [("rec_num", Cond.eqVal (Value.vInt 1))] [("name", Value.vStr "Fido")] =
      ([[("rec_num", Value.vInt 1), ("name", Value.vStr "Fido")]], 1) := by
  refine ⟨?_, ?_, update_count_zip q ch coll, by decide⟩
  · simp [update, update_many]
  · intro i r hr
    constructor
    · intro hm
      simp [update, update_many, List.getElem?_map, hr, applyUpdateDoc, hm]
    · intro hm
      refine ⟨applySet ch r, ?_, ?_, ?_⟩
      · simp [update, update_many, List.getElem?_map, hr, applyUpdateDoc, hm]
      · exact fun k v hk => getField_applySet_of_some hkeys hk r
      · exact fun k hk => getField_applySet_of_none hk r

/-- Witness for C7 at the spec's concrete update example. -/
theorem update_merge_semantics_witness :
    (update w7coll w7q w7ch).2 =
      ((w7coll.zip (update w7coll w7q w7ch).1).filter
        (fun p => decide (p.1 ≠ p.2))).length :=
  (update_merge_semantics w7coll w7q w7ch (by decide)).2.2.1

/-- C8: `delete` removes exactly the records matching the query (the
empty query removes everything) and returns the number removed; when
exactly one record matches, the call returns 1 and an immediate repeat
returns 0. -/
theorem delete_matching_records (coll : Collection) (q : Query) :
    (∀ r, r ∈ (delete coll q).1 ↔ r ∈ coll ∧ matchesQuery q r = false) ∧
    (delete coll q).2 + (delete coll q).1.length = coll.length ∧
    ((delete coll []).1 = [] ∧ (delete coll []).2 = coll.length) ∧
    (coll.countP (matchesQuery q) = 1 →
      (delete coll q).2 = 1 ∧ (delete (delete coll q).1 q).2 = 0) := by
  refine ⟨?_, ?_, ⟨?_, ?_⟩, fun hone => ⟨?_, ?_⟩⟩
  · intro r
    simp [delete, delete_many, List.mem_filter, Bool.not_eq_true']
  · exact length_filter_split (matchesQuery q) coll
  · have hall : ∀ r : Record, matchesQuery ([] : Query) r = true := fun r => rfl
    simp [delete, delete_many, hall]
  · have hall : ∀ r : Record, matchesQuery ([] : Query) r = true := fun r => rfl
    simp [delete, delete_many, hall]
  · rw [delete, delete_many]
    rw [← List.countP_eq_length_filter]
    exact hone
  · simp [delete, delete_many, List.filter_filter]

/-- Witness for C8 at the spec's concrete delete example. -/
theorem delete_matching_records_witness :
    (delete w8coll w8q).2 = 1 ∧ (delete (delete w8coll w8q).1 w8q).2 = 0 :=
  (delete_matching_records w8coll w8q).2.2.2 (by decide)

/-- C9: `create` mutates the caller's mapping in place — the allocated
sequence number is written into `rec_num` before the insert is attempted,
other fields are untouched — so the caller's mapping carries the new
`rec_num` after the call for every outcome, including the failing insert,
which leaves the collection itself unchanged. -/
theorem create_mutates_caller_record (coll : Collection) (d : Record)
    (o : InsertOutcome) :
    ∃ d2, (create coll (some d) o).callerData = some d2 ∧
      getField d2 "rec_num" = some (.vInt (specNextRecNum coll)) ∧
      (∀ k, k ≠ "rec_num" → getField d2 k = getField d k) ∧
      (create coll (some d) .failure).coll = coll := by
  refine ⟨setField d "rec_num" (.vInt (specNextRecNum coll)), ?_, ?_, ?_, ?_⟩
  · cases o
    · rw [create_ack_eq]
    · rw [create_failure_eq]
  · exact getField_setField_self d "rec_num" _
  · exact fun k hk => getField_setField_ne d "rec_num" k _ hk
  · rw [create_failure_eq]

/-- Witness for C9: a failing insert still leaves the allocated
`rec_num` in the caller's record. -/
theorem create_mutates_caller_record_witness :
    ∃ d2, (create [] (some w9d) .failure).callerData = some d2 ∧
      getField d2 "rec_num" = some (.vInt (specNextRecNum ([] : Collection))) ∧
      (∀ k, k ≠ "rec_num" → getField d2 k = getField w9d k) ∧
      (create [] (some w9d) .failure).coll = [] :=
  create_mutates_caller_record [] w9d .failure

/-- C10: `create` accepts the empty mapping — only `None` is rejected —
assigns it a `rec_num`, and inserts a record whose only field is the
assigned `rec_num`. -/
theorem create_empty_mapping_ok (coll : Collection) :
    (create coll (some []) .ack).result = .ok true ∧
    (create coll (some []) .ack).coll =
      coll ++ [[("rec_num", Value.vInt (specNextRecNum coll))]] := by
  rw [create_ack_eq]
  exact ⟨rfl, rfl⟩

end AnimalShelterModel
